/-
Verification of the MR_Scripts utilities: a shallow embedding of the
row-join utilities (all_ex_out.py, get_bac.py), the line filter and
multi-file merge utility (filter_dat.py), and the whitespace-to-tab
converter (retype.py), together with proofs of the specified properties.

Files are modelled by their parsed contents: a tab-delimited CSV file is a
list of rows (each row a list of string fields), a plain text file is a
list of lines (strings without their trailing newline).  The file system
is modelled as a partial map from path to content.
-/
import Mathlib

namespace MR

/-! ## Row-join utilities (all_ex_out.py and get_bac.py)

Both scripts read file A with `csv.reader(..., delimiter="\t")`, keep rows
with at least 3 fields, and store `row` under key `row[2]` in a dict
(later rows overwrite earlier ones).  They then scan file B and, for each
row long enough to hold its key column, emit `a_row ++ b_row` when the key
is present in the dict.  `all_ex_out.py` uses key column 4 and minimum
length 5 for file B; `get_bac.py` uses key column 3 and minimum length 4. -/

abbrev Row := List String

/-- One step of building the key dictionary from a row of file A:
`if len(row) >= minCols: map[row[keyCol]] = row` (overwriting). -/
def bkStep (keyCol minCols : Nat) (acc : String → Option Row) (row : Row) :
    String → Option Row :=
  if minCols ≤ row.length then
    fun k => if k = row.getD keyCol "" then some row else acc k
  else acc

/-- The key-to-row dictionary built from file A (the build phase shared by
`merge_files_based_on_key` and `merge_fun`): qualifying rows are inserted
in file order, duplicates overwrite. -/
def buildKeyMap (keyCol minCols : Nat) (rows : List Row) : String → Option Row :=
  rows.foldl (bkStep keyCol minCols) (fun _ => none)

/-- The probe step for a single row of file B: if the row is long enough
and its key column is in the dictionary, produce the concatenated row. -/
def probeOne (aMap : String → Option Row) (keyCol minCols : Nat) (row : Row) :
    Option Row :=
  if minCols ≤ row.length then
    match aMap (row.getD keyCol "") with
    | some rowA => some (rowA ++ row)
    | none => none
  else none

/-- The probe phase: scan file B in order, emitting the merged row for
every hit. -/
def probeMerge (aMap : String → Option Row) (keyCol minCols : Nat)
    (rowsB : List Row) : List Row :=
  rowsB.filterMap (probeOne aMap keyCol minCols)

/-- `merge_files_based_on_key` from all_ex_out.py: key column 2 and minimum
length 3 in file A, key column 4 and minimum length 5 in file B. -/
def merge_files_based_on_key (a b : List Row) : List Row :=
  probeMerge (buildKeyMap 2 3 a) 4 5 b

/-- `merge_fun` from get_bac.py: key column 2 and minimum length 3 in file
A, key column 3 and minimum length 4 in file B. -/
def merge_fun (a b : List Row) : List Row :=
  probeMerge (buildKeyMap 2 3 a) 3 4 b

/-- Specification-side description of the join output, written from the
spec's words: the rows of B that are long enough and whose key is in A's
index, in B's order, each contributing exactly one concatenated row. -/
def specJoinOutput (aMap : String → Option Row) (keyCol minCols : Nat)
    (rowsB : List Row) : List Row :=
  (rowsB.filter
      (fun r => if minCols ≤ r.length then (aMap (r.getD keyCol "")).isSome
                else false)).map
    (fun r => (aMap (r.getD keyCol "")).getD [] ++ r)

/-! ## Merging filtered files (merge_filtered_files in filter_dat.py)

Each entry of the input list is the content of one filtered file:
`none` for a missing file, otherwise its list of lines.  The code keeps a
`header_written` flag: the first existing non-empty file is copied whole,
subsequent ones contribute `lines[1:]`. -/

/-- The loop of `merge_filtered_files`, with the `header_written` flag
explicit. -/
def mergeGo : Bool → List (Option (List String)) → List String
  | _, [] => []
  | hw, none :: rest => mergeGo hw rest
  | hw, some [] :: rest => mergeGo hw rest
  | hw, some (l0 :: body) :: rest =>
    if hw then body ++ mergeGo hw rest
    else l0 :: (body ++ mergeGo true rest)

/-- `merge_filtered_files` from filter_dat.py. -/
def merge_filtered_files (files : List (Option (List String))) : List String :=
  mergeGo false files

/-- Specification-side description of the merged output, written from the
spec's words: the header of the first existing non-empty file, followed by
the body lines (all lines after line 1) of every existing non-empty file
in order. -/
def specMergeOutput (files : List (Option (List String))) : List String :=
  match (files.filterMap id).filter (fun l => !l.isEmpty) with
  | [] => []
  | f :: fs => f.headD "" :: ((f :: fs).map List.tail).flatten

/-! ## String primitives

Embeddings of the Python string operations the scripts use: `str.strip()`
(remove leading and trailing whitespace) and `str.split()` with no
argument (split on runs of whitespace, discarding empty fields). -/

/-- Python `str.strip()` on a character list. -/
def pyStripL (l : List Char) : List Char :=
  ((l.dropWhile Char.isWhitespace).reverse.dropWhile Char.isWhitespace).reverse

/-- Python `str.strip()`. -/
def pyStrip (s : String) : String := ⟨pyStripL s.toList⟩

/-- Worker for Python `str.split()` with no argument: `acc` holds the
characters of the current field in reverse. -/
def pySplitAux : List Char → List Char → List (List Char)
  | [], acc => if acc.isEmpty then [] else [acc.reverse]
  | c :: cs, acc =>
    if c.isWhitespace then
      if acc.isEmpty then pySplitAux cs [] else acc.reverse :: pySplitAux cs []
    else pySplitAux cs (c :: acc)

/-- Python `str.split()` with no argument, on a character list. -/
def pySplitL (l : List Char) : List (List Char) := pySplitAux l []

/-- Python `str.split()` with no argument. -/
def pySplit (s : String) : List String := (pySplitL s.toList).map (fun l => ⟨l⟩)

/-- Python `"\t".join(fields)` on character lists. -/
def tabJoinL : List (List Char) → List Char
  | [] => []
  | [t] => t
  | t :: ts => t ++ '\t' :: tabJoinL ts

/-! ## Python float values (the float() builtin and its comparison)

The filter compares `float(parts[9]) < 1e-05`.  A Python float is modelled
as NaN, an infinity, or an exact rational given by a numerator and a
positive denominator (the finite case abstracts the binary64 value of the
literal).  Python's comparison returns False whenever either side is
NaN. -/

/-- A Python float value; `finite num den` stands for `num / den`
(the parser only produces positive denominators, powers of ten). -/
inductive PyFloat where
  | nan : PyFloat
  | posInf : PyFloat
  | negInf : PyFloat
  | finite (num : ℤ) (den : ℕ) : PyFloat
deriving DecidableEq, Repr

/-- Python `<` on float values: any comparison with NaN is False; finite
values compare by cross multiplication. -/
def PyFloat.lt : PyFloat → PyFloat → Bool
  | .nan, _ => false
  | _, .nan => false
  | .negInf, .negInf => false
  | .negInf, _ => true
  | _, .negInf => false
  | .posInf, _ => false
  | .finite n1 d1, .finite n2 d2 => decide (n1 * (d2 : ℤ) < n2 * (d1 : ℤ))
  | .finite _ _, .posInf => true

/-- Numeric value of a list of decimal digits. -/
def digitsToNat (l : List Char) : Nat :=
  l.foldl (fun a c => a * 10 + (c.toNat - 48)) 0

/-- Split a character list at the first occurrence of `sep`;
`none` when `sep` does not occur. -/
def splitFirst (sep : Char) : List Char → Option (List Char × List Char)
  | [] => none
  | c :: cs =>
    if c = sep then some ([], cs)
    else
      match splitFirst sep cs with
      | none => none
      | some (l, r) => some (c :: l, r)

/-- Parse an optional leading sign; returns (isNegative, rest). -/
def parseSign : List Char → Bool × List Char
  | '+' :: cs => (false, cs)
  | '-' :: cs => (true, cs)
  | cs => (false, cs)

/-- Parse the mantissa of a float literal: decimal digits with at most one
point, at least one digit in total.  Returns numerator and denominator. -/
def parseMantissa (cs : List Char) : Option (ℤ × ℕ) :=
  match splitFirst '.' cs with
  | none =>
    if cs.isEmpty then none
    else if cs.all Char.isDigit then some ((digitsToNat cs : ℤ), 1) else none
  | some (ip, fp) =>
    if ip.isEmpty && fp.isEmpty then none
    else if ip.all Char.isDigit && fp.all Char.isDigit then
      some (((digitsToNat ip * 10 ^ fp.length + digitsToNat fp : ℕ) : ℤ),
        10 ^ fp.length)
    else none

/-- Parse the exponent of a float literal: optional sign, then digits. -/
def parseExponent (cs : List Char) : Option ℤ :=
  let sr := parseSign cs
  if sr.2.isEmpty then none
  else if sr.2.all Char.isDigit then
    some (if sr.1 then -(digitsToNat sr.2 : ℤ) else (digitsToNat sr.2 : ℤ))
  else none

/-- Scale a mantissa `num / den` by `10 ^ e`. -/
def applyExponent (num : ℤ) (den : ℕ) (e : ℤ) : ℤ × ℕ :=
  if 0 ≤ e then (num * ((10 ^ e.toNat : ℕ) : ℤ), den)
  else (num, den * 10 ^ (-e).toNat)

/-- Embedding of Python's `float(s)` builtin on the literals the scripts
meet: an optional sign followed by `inf`, `infinity`, `nan` (case
insensitive) or a decimal literal with optional fraction and exponent.
Returns `none` when the string is not a float literal (Python raises
`ValueError`). -/
def pyFloat? (s : String) : Option PyFloat :=
  let cs := s.toList.map Char.toLower
  let sr := parseSign cs
  if sr.2 = ['i', 'n', 'f'] ∨ sr.2 = ['i', 'n', 'f', 'i', 'n', 'i', 't', 'y'] then
    some (if sr.1 then .negInf else .posInf)
  else if sr.2 = ['n', 'a', 'n'] then some .nan
  else
    match splitFirst 'e' sr.2 with
    | none =>
      (parseMantissa sr.2).map
        (fun md => PyFloat.finite (if sr.1 then -md.1 else md.1) md.2)
    | some (mc, ec) =>
      match parseMantissa mc, parseExponent ec with
      | some md, some e =>
        let sc := applyExponent md.1 md.2 e
        some (.finite (if sr.1 then -sc.1 else sc.1) sc.2)
      | _, _ => none

/-- The threshold `1e-05` from filter_dat.py, the value `1 / 100000`. -/
def pyThreshold : PyFloat := .finite 1 100000

/-! ## The filter stage (filter_file in filter_dat.py)

The input file is a list of lines (without trailing newlines).  The first
line is read as the header: if non-empty after stripping it is written and
counted.  Every following line, numbered from 2, is stripped; empty lines
are skipped silently; lines with fewer than 10 whitespace-separated fields
are skipped with a logged warning; lines whose 10th field does not parse
as a float are skipped with a logged warning; lines whose parsed value is
strictly below `1e-05` are written (the stripped text plus a newline). -/

/-- The reason recorded by `log_skipped_line`. -/
inductive SkipReason where
  | lessThan10Columns : SkipReason
  | cannotConvertToFloat (field : String) : SkipReason
deriving DecidableEq, Repr

/-- One warning produced by `log_skipped_line`: the line number, the file
being processed and the reason. -/
structure LogEntry where
  lineNumber : Nat
  filepath : String
  reason : SkipReason
deriving DecidableEq, Repr

/-- The outcome of `filter_file`: the header line written (if any), the
body lines written, the reported `rows_written` count, and the warnings
logged in order. -/
structure FilterResult where
  headerLine : Option String
  bodyLines : List String
  rowsWritten : Nat
  warnings : List LogEntry
deriving DecidableEq, Repr

/-- Total field access: `l[i]` on the fields of a line (the scripts only
index after checking the length). -/
def fieldD (l : List String) (i : Nat) : String := l.getD i ""

/-- Processing of one body line of `filter_file`: returns the line written
(if any) and the warning logged (if any). -/
def processBodyLine (path : String) (n : Nat) (line : String) :
    Option String × Option LogEntry :=
  let l := pyStrip line
  if l = "" then (none, none)
  else
    let parts := pySplit l
    if parts.length < 10 then (none, some ⟨n, path, .lessThan10Columns⟩)
    else
      match pyFloat? (fieldD parts 9) with
      | none => (none, some ⟨n, path, .cannotConvertToFloat (fieldD parts 9)⟩)
      | some v => if v.lt pyThreshold then (some l, none) else (none, none)

/-- The body loop of `filter_file`: lines numbered from `n`, returning the
lines written, the number of lines written, and the warnings logged. -/
def processBody (path : String) : Nat → List String →
    List String × Nat × List LogEntry
  | _, [] => ([], 0, [])
  | n, line :: rest =>
    let tl := processBody path (n + 1) rest
    match processBodyLine path n line with
    | (some l, _) => (l :: tl.1, tl.2.1 + 1, tl.2.2)
    | (none, some w) => (tl.1, tl.2.1, w :: tl.2.2)
    | (none, none) => tl

/-- `filter_file` from filter_dat.py, on the list of lines of the input
file. -/
def filter_file (path : String) (lines : List String) : FilterResult :=
  match lines with
  | [] => ⟨none, [], 0, []⟩
  | first :: rest =>
    let header := pyStrip first
    let body := processBody path 2 rest
    if header = "" then ⟨none, body.1, body.2.1, body.2.2⟩
    else ⟨some header, body.1, body.2.1 + 1, body.2.2⟩

/-- The keep condition of the filter, written from the spec's words: at
least 10 whitespace-separated fields, and the 10th parses as a float
strictly below the threshold. -/
def ltThresholdOpt : Option PyFloat → Bool
  | some v => v.lt pyThreshold
  | none => false

/-- Whether a (stripped) body line is written by the filter. -/
def keepPred (l : String) : Bool :=
  if 10 ≤ (pySplit l).length then
    ltThresholdOpt (pyFloat? (fieldD (pySplit l) 9))
  else false

/-- Whether no logged warning carries the given line number. -/
def noWarningAt (r : FilterResult) (n : Nat) : Bool :=
  r.warnings.all (fun w => w.lineNumber ≠ n)

/-! ## The batch driver (process_file_paths in filter_dat.py)

`process_file_paths` reads the list of input paths, strips each line,
skips empty lines, logs an error and continues for paths that do not
exist, and filters each existing file.  The file system is a partial map
from path to file lines. -/

/-- The outcome of the path-iteration loop of `process_file_paths`: the
files actually filtered (path with filter outcome, in order) and the paths
reported missing (in order). -/
structure BatchResult where
  processed : List (String × FilterResult)
  errors : List String
deriving DecidableEq, Repr

/-- `process_file_paths` from filter_dat.py (the iteration over the listed
paths): `fs` is the file system, `pathLines` the lines of the path-list
file. -/
def process_file_paths (fs : String → Option (List String)) :
    List String → BatchResult
  | [] => ⟨[], []⟩
  | line :: rest =>
    let s := pyStrip line
    let r := process_file_paths fs rest
    if s = "" then r
    else
      match fs s with
      | none => ⟨r.processed, s :: r.errors⟩
      | some content => ⟨(s, filter_file s content) :: r.processed, r.errors⟩

/-! ## The join program with its file handling (all_ex_out.py)

`merge_files_based_on_key` opens its input files inside a `try` block; a
`FileNotFoundError` is caught, reported, and the program exits with status
1.  The program outcome is either the produced output rows or a non-zero
exit code. -/

/-- Outcome of running a utility: normal completion with a value, or
termination via `sys.exit` with the given status. -/
inductive RunOutcome (α : Type) where
  | ok (val : α) : RunOutcome α
  | exit (code : Nat) : RunOutcome α
deriving DecidableEq, Repr

/-- The `merge_files_based_on_key` program of all_ex_out.py including its
file handling: a missing input file leads to `sys.exit(1)`. -/
def merge_files_program (fs : String → Option (List Row)) (fileA fileB : String) :
    RunOutcome (List Row) :=
  match fs fileA with
  | none => .exit 1
  | some a =>
    match fs fileB with
    | none => .exit 1
    | some b => .ok (merge_files_based_on_key a b)

/-! ## The whitespace-to-tab converter (retype.py)

Each line is stripped, split on whitespace, and the fields are joined with
tabs. -/

/-- The per-line transform of `convert_to_tab_delimited`:
`"\t".join(line.strip().split())`. -/
def convert_line (s : String) : String :=
  ⟨tabJoinL (pySplitL (pyStripL s.toList))⟩

/-- `convert_to_tab_delimited` from retype.py, on the list of lines of the
input file. -/
def convert_to_tab_delimited (lines : List String) : List String :=
  lines.map convert_line

/-! ## Lemmas about the join -/

lemma bkFold_sound (kc mc : Nat) :
    ∀ (rows : List Row) (acc : String → Option Row) (k : String) (r : Row),
      (rows.foldl (bkStep kc mc) acc) k = some r →
      acc k = some r ∨ (r ∈ rows ∧ mc ≤ r.length ∧ r.getD kc "" = k) := by
  intro rows
  induction rows with
  | nil => intro acc k r h; exact Or.inl h
  | cons row rest ih =>
    intro acc k r h
    rw [List.foldl_cons] at h
    rcases ih (bkStep kc mc acc row) k r h with h' | h'
    · by_cases hlen : mc ≤ row.length
      · by_cases hk : k = row.getD kc ""
        · simp only [bkStep, if_pos hlen, if_pos hk] at h'
          injection h' with hr
          subst hr
          exact Or.inr ⟨List.mem_cons_self _ _, hlen, hk.symm⟩
        · simp only [bkStep, if_pos hlen, if_neg hk] at h'
          exact Or.inl h'
      · simp only [bkStep, if_neg hlen] at h'
        exact Or.inl h'
    · exact Or.inr ⟨List.mem_cons_of_mem _ h'.1, h'.2⟩

lemma buildKeyMap_sound (kc mc : Nat) (rows : List Row) (k : String) (r : Row)
    (h : buildKeyMap kc mc rows k = some r) :
    r ∈ rows ∧ mc ≤ r.length ∧ r.getD kc "" = k := by
  rcases bkFold_sound kc mc rows (fun _ => none) k r h with h' | h'
  · exact absurd h' (by simp)
  · exact h'

lemma bkFold_noTouch (kc mc : Nat) :
    ∀ (rows : List Row) (acc : String → Option Row) (k : String),
      (∀ q ∈ rows, mc ≤ q.length → q.getD kc "" ≠ k) →
      (rows.foldl (bkStep kc mc) acc) k = acc k := by
  intro rows
  induction rows with
  | nil => intro acc k _; rfl
  | cons row rest ih =>
    intro acc k hno
    rw [List.foldl_cons, ih _ k (fun q hq => hno q (List.mem_cons_of_mem _ hq))]
    by_cases hlen : mc ≤ row.length
    · have hne : k ≠ row.getD kc "" :=
        fun h => hno row (List.mem_cons_self _ _) hlen h.symm
      simp only [bkStep, if_pos hlen, if_neg hne]
    · simp only [bkStep, if_neg hlen]

lemma buildKeyMap_last (kc mc : Nat) (pre post : List Row) (r : Row) (k : String)
    (hlen : mc ≤ r.length) (hk : r.getD kc "" = k)
    (hpost : ∀ q ∈ post, mc ≤ q.length → q.getD kc "" ≠ k) :
    buildKeyMap kc mc (pre ++ r :: post) k = some r := by
  unfold buildKeyMap
  rw [List.foldl_append, List.foldl_cons, bkFold_noTouch kc mc post _ k hpost]
  simp only [bkStep, if_pos hlen, if_pos hk.symm]

lemma probeOne_hit (m : String → Option Row) (kc mc : Nat) (row ra : Row)
    (hlen : mc ≤ row.length) (hm : m (row.getD kc "") = some ra) :
    probeOne m kc mc row = some (ra ++ row) := by
  simp only [probeOne, if_pos hlen, hm]

lemma probeMerge_eq_spec (m : String → Option Row) (kc mc : Nat)
    (b : List Row) : probeMerge m kc mc b = specJoinOutput m kc mc b := by
  induction b with
  | nil => rfl
  | cons row rest ih =>
    unfold probeMerge specJoinOutput at *
    rw [List.filterMap_cons, List.filter_cons]
    by_cases hlen : mc ≤ row.length
    · cases hm : m (row.getD kc "") with
      | none =>
        rw [List.getD_eq_getElem?_getD] at hm
        simp [probeOne, hlen, hm, ih]
      | some ra =>
        rw [List.getD_eq_getElem?_getD] at hm
        simp [probeOne, hlen, hm, ih]
    · simp [probeOne, hlen, ih]

lemma probeMerge_sound (m : String → Option Row) (kc mc : Nat) (b : List Row)
    (r : Row) (hr : r ∈ probeMerge m kc mc b) :
    ∃ ra rb, rb ∈ b ∧ r = ra ++ rb ∧ mc ≤ rb.length ∧
      m (rb.getD kc "") = some ra := by
  rcases List.mem_filterMap.mp hr with ⟨rb, hb, hp⟩
  by_cases hlen : mc ≤ rb.length
  · simp only [probeOne, if_pos hlen] at hp
    cases hm : m (rb.getD kc "") with
    | none => rw [hm] at hp; exact absurd hp (by simp)
    | some ra =>
      rw [hm] at hp
      injection hp with hr'
      exact ⟨ra, rb, hb, hr'.symm, hlen, hm⟩
  · simp only [probeOne, if_neg hlen] at hp
    exact absurd hp (by simp)

/-- C1: every output row of the row-join utilities is the concatenation of
a qualifying row of file A and a qualifying row of file B agreeing on
their key columns; and the output is exactly one merged row for each row
of B whose key is in A's index, in B's original order, with unmatched rows
of B absent (the output equals the spec-side description
`specJoinOutput`).  Stated for `merge_files_based_on_key` (all_ex_out.py,
key columns 2 and 4, minimum lengths 3 and 5) and `merge_fun`
(get_bac.py, key columns 2 and 3, minimum lengths 3 and 4). -/
theorem join_correct_and_complete (a b : List Row) :
    (∀ r ∈ merge_files_based_on_key a b, ∃ ra rb, ra ∈ a ∧ rb ∈ b ∧
        r = ra ++ rb ∧ 3 ≤ ra.length ∧ 5 ≤ rb.length ∧
        ra.getD 2 "" = rb.getD 4 "") ∧
    merge_files_based_on_key a b = specJoinOutput (buildKeyMap 2 3 a) 4 5 b ∧
    (∀ r ∈ merge_fun a b, ∃ ra rb, ra ∈ a ∧ rb ∈ b ∧
        r = ra ++ rb ∧ 3 ≤ ra.length ∧ 4 ≤ rb.length ∧
        ra.getD 2 "" = rb.getD 3 "") ∧
    merge_fun a b = specJoinOutput (buildKeyMap 2 3 a) 3 4 b := by
  refine ⟨?_, probeMerge_eq_spec _ _ _ _, ?_, probeMerge_eq_spec _ _ _ _⟩
  · intro r hr
    rcases probeMerge_sound _ _ _ _ _ hr with ⟨ra, rb, hb, hreq, hblen, hm⟩
    rcases buildKeyMap_sound _ _ _ _ _ hm with ⟨hain, halen, hakey⟩
    exact ⟨ra, rb, hain, hb, hreq, halen, hblen, hakey⟩
  · intro r hr
    rcases probeMerge_sound _ _ _ _ _ hr with ⟨ra, rb, hb, hreq, hblen, hm⟩
    rcases buildKeyMap_sound _ _ _ _ _ hm with ⟨hain, halen, hakey⟩
    exact ⟨ra, rb, hain, hb, hreq, halen, hblen, hakey⟩

/-- Witness for C1 on the spec's scenario files. -/
theorem join_correct_and_complete_witness :
    ["x", "y", "K1", "v1", "p", "q", "r", "s", "K1"] ∈
      merge_files_based_on_key [["x", "y", "K1", "v1"], ["x", "y", "K2", "v2"]]
        [["p", "q", "r", "s", "K1"]] ∧
    (∃ ra rb, ra ∈ [["x", "y", "K1", "v1"], ["x", "y", "K2", "v2"]] ∧
      rb ∈ [["p", "q", "r", "s", "K1"]] ∧
      ["x", "y", "K1", "v1", "p", "q", "r", "s", "K1"] = ra ++ rb ∧
      3 ≤ ra.length ∧ 5 ≤ rb.length ∧ ra.getD 2 "" = rb.getD 4 "") :=
  ⟨by decide,
   (join_correct_and_complete [["x", "y", "K1", "v1"], ["x", "y", "K2", "v2"]]
       [["p", "q", "r", "s", "K1"]]).1
     ["x", "y", "K1", "v1", "p", "q", "r", "s", "K1"] (by decide)⟩

/-- C3: when file A contains two qualifying rows with the same key (and no
later qualifying row carries that key), the key index maps the key to the
later of the two, and every merged row produced for that key uses the
later row: last-write-wins. -/
theorem join_last_write_wins (pre mid post b : List Row) (r1 r2 rb : Row)
    (k : String)
    (_h1 : 3 ≤ r1.length) (_hk1 : r1.getD 2 "" = k)
    (h2 : 3 ≤ r2.length) (hk2 : r2.getD 2 "" = k)
    (hpost : ∀ q ∈ post, 3 ≤ q.length → q.getD 2 "" ≠ k)
    (hb : rb ∈ b) (hbl : 5 ≤ rb.length) (hbk : rb.getD 4 "" = k) :
    buildKeyMap 2 3 (pre ++ r1 :: mid ++ r2 :: post) k = some r2 ∧
    probeOne (buildKeyMap 2 3 (pre ++ r1 :: mid ++ r2 :: post)) 4 5 rb =
      some (r2 ++ rb) ∧
    r2 ++ rb ∈ merge_files_based_on_key (pre ++ r1 :: mid ++ r2 :: post) b := by
  have heq : pre ++ r1 :: mid ++ r2 :: post = (pre ++ r1 :: mid) ++ r2 :: post := by
    simp [List.append_assoc]
  have hmap : buildKeyMap 2 3 (pre ++ r1 :: mid ++ r2 :: post) k = some r2 := by
    rw [heq]
    exact buildKeyMap_last 2 3 (pre ++ r1 :: mid) post r2 k h2 hk2 hpost
  have hpro : probeOne (buildKeyMap 2 3 (pre ++ r1 :: mid ++ r2 :: post)) 4 5 rb =
      some (r2 ++ rb) := by
    refine probeOne_hit _ _ _ _ _ hbl ?_
    rw [hbk]
    exact hmap
  exact ⟨hmap, hpro, List.mem_filterMap.mpr ⟨rb, hb, hpro⟩⟩

/-- Witness for C3: file A holds two rows keyed `K`; the index and the
merged output use the second. -/
theorem join_last_write_wins_witness :
    (3 : Nat) ≤ (["c", "d", "K"] : Row).length ∧
    buildKeyMap 2 3 [["a", "b", "K"], ["c", "d", "K"]] "K" = some ["c", "d", "K"] ∧
    ["c", "d", "K", "p", "q", "r", "s", "K"] ∈
      merge_files_based_on_key [["a", "b", "K"], ["c", "d", "K"]]
        [["p", "q", "r", "s", "K"]] :=
  ⟨by decide,
   (join_last_write_wins [] [] [] [["p", "q", "r", "s", "K"]]
       ["a", "b", "K"] ["c", "d", "K"] ["p", "q", "r", "s", "K"] "K"
       (by decide) rfl (by decide) rfl (by intro q hq; cases hq)
       (by decide) (by decide) rfl).1,
   (join_last_write_wins [] [] [] [["p", "q", "r", "s", "K"]]
       ["a", "b", "K"] ["c", "d", "K"] ["p", "q", "r", "s", "K"] "K"
       (by decide) rfl (by decide) rfl (by intro q hq; cases hq)
       (by decide) (by decide) rfl).2.2⟩

/-! ## Lemmas about the merge of filtered files -/

lemma mergeGo_true (files : List (Option (List String))) :
    mergeGo true files =
      (((files.filterMap id).filter (fun l => !l.isEmpty)).map List.tail).flatten := by
  induction files with
  | nil => rfl
  | cons f rest ih =>
    cases f with
    | none => simpa [mergeGo] using ih
    | some content =>
      cases content with
      | nil => simpa [mergeGo] using ih
      | cons l0 body => simp [mergeGo, ih]

/-- C4: the merged output of the filtered files starts with the first line
of the first existing non-empty file, copied exactly once, followed by the
body lines (all lines after line 1) of every existing non-empty file in
list order including the first; subsequent files' first lines are dropped,
and missing or empty files contribute nothing (the output equals the
spec-side description `specMergeOutput`). -/
theorem merge_header_and_bodies (files : List (Option (List String))) :
    merge_filtered_files files = specMergeOutput files := by
  unfold merge_filtered_files
  induction files with
  | nil => rfl
  | cons f rest ih =>
    cases f with
    | none => simpa [mergeGo, specMergeOutput] using ih
    | some content =>
      cases content with
      | nil => simpa [mergeGo, specMergeOutput] using ih
      | cons l0 body => simp [mergeGo, specMergeOutput, mergeGo_true]

/-! ## Lemmas about the filter stage -/

lemma keepPred_empty : keepPred "" = false := by decide

lemma processBodyLine_fst (path : String) (n : Nat) (line : String) :
    (processBodyLine path n line).1 =
      if keepPred (pyStrip line) then some (pyStrip line) else none := by
  by_cases h0 : pyStrip line = ""
  · simp [processBodyLine, h0, keepPred_empty]
  · by_cases h10 : (pySplit (pyStrip line)).length < 10
    · have hn : ¬ (10 ≤ (pySplit (pyStrip line)).length) := by omega
      simp [processBodyLine, h0, h10, keepPred, hn]
    · have hy : 10 ≤ (pySplit (pyStrip line)).length := by omega
      cases hp : pyFloat? (fieldD (pySplit (pyStrip line)) 9) with
      | none => simp [processBodyLine, h0, h10, keepPred, hy, hp, ltThresholdOpt]
      | some v =>
        cases hv : v.lt pyThreshold with
        | true =>
          simp [processBodyLine, h0, h10, keepPred, hy, hp, hv, ltThresholdOpt]
        | false =>
          simp [processBodyLine, h0, h10, keepPred, hy, hp, hv, ltThresholdOpt]

lemma processBodyLine_no_warning_of_kept (path : String) (n : Nat)
    (line : String) (h : (processBodyLine path n line).1.isSome) :
    (processBodyLine path n line).2 = none := by
  by_cases h0 : pyStrip line = ""
  · simp [processBodyLine, h0]
  · by_cases h10 : (pySplit (pyStrip line)).length < 10
    · simp [processBodyLine, h0, h10] at h
    · cases hp : pyFloat? (fieldD (pySplit (pyStrip line)) 9) with
      | none => simp [processBodyLine, h0, h10, hp] at h
      | some v =>
        cases hv : v.lt pyThreshold with
        | true => simp [processBodyLine, h0, h10, hp, hv]
        | false => simp [processBodyLine, h0, h10, hp, hv] at h

lemma processBodyLine_snd_lineNumber (path : String) (n : Nat) (line : String)
    (w : LogEntry) (h : (processBodyLine path n line).2 = some w) :
    w.lineNumber = n ∧ w.filepath = path := by
  by_cases h0 : pyStrip line = ""
  · simp [processBodyLine, h0] at h
  · by_cases h10 : (pySplit (pyStrip line)).length < 10
    · simp [processBodyLine, h0, h10] at h
      rw [← h]
      exact ⟨rfl, rfl⟩
    · cases hp : pyFloat? (fieldD (pySplit (pyStrip line)) 9) with
      | none =>
        simp [processBodyLine, h0, h10, hp] at h
        rw [← h]
        exact ⟨rfl, rfl⟩
      | some v =>
        cases hv : v.lt pyThreshold with
        | true => simp [processBodyLine, h0, h10, hp, hv] at h
        | false => simp [processBodyLine, h0, h10, hp, hv] at h

lemma processBody_fst_count (path : String) :
    ∀ (n : Nat) (rest : List String),
      (processBody path n rest).1 = (rest.map pyStrip).filter keepPred ∧
      (processBody path n rest).2.1 =
        ((rest.map pyStrip).filter keepPred).length := by
  intro n rest
  induction rest generalizing n with
  | nil => exact ⟨rfl, rfl⟩
  | cons line rest ih =>
    rcases hpl : processBodyLine path n line with ⟨o, w0⟩
    have ho : o = if keepPred (pyStrip line) then some (pyStrip line) else none := by
      rw [← processBodyLine_fst path n line, hpl]
    have hun : processBody path n (line :: rest) =
        match processBodyLine path n line with
        | (some l, _) =>
          (l :: (processBody path (n + 1) rest).1,
           (processBody path (n + 1) rest).2.1 + 1,
           (processBody path (n + 1) rest).2.2)
        | (none, some w) =>
          ((processBody path (n + 1) rest).1,
           (processBody path (n + 1) rest).2.1,
           w :: (processBody path (n + 1) rest).2.2)
        | (none, none) => processBody path (n + 1) rest := rfl
    rw [hun, hpl]
    by_cases hk : keepPred (pyStrip line)
    · rw [if_pos hk] at ho
      subst ho
      simp only [List.map_cons, List.filter_cons, hk, if_pos]
      exact ⟨by rw [(ih (n + 1)).1], by rw [(ih (n + 1)).2]; rfl⟩
    · rw [if_neg hk] at ho
      subst ho
      cases w0 with
      | some w =>
        simp only [List.map_cons, List.filter_cons, hk]
        exact ⟨(ih (n + 1)).1, (ih (n + 1)).2⟩
      | none =>
        simp only [List.map_cons, List.filter_cons, hk]
        exact ⟨(ih (n + 1)).1, (ih (n + 1)).2⟩

lemma processBody_warnings_cons (path : String) (n : Nat) (line : String)
    (rest : List String) :
    (processBody path n (line :: rest)).2.2 =
      ((processBodyLine path n line).2).toList ++
        (processBody path (n + 1) rest).2.2 := by
  rcases hpl : processBodyLine path n line with ⟨o, w0⟩
  have hun : processBody path n (line :: rest) =
      match processBodyLine path n line with
      | (some l, _) =>
        (l :: (processBody path (n + 1) rest).1,
         (processBody path (n + 1) rest).2.1 + 1,
         (processBody path (n + 1) rest).2.2)
      | (none, some w) =>
        ((processBody path (n + 1) rest).1,
         (processBody path (n + 1) rest).2.1,
         w :: (processBody path (n + 1) rest).2.2)
      | (none, none) => processBody path (n + 1) rest := rfl
  rw [hun, hpl]
  cases o with
  | some l =>
    have hw0 : w0 = none := by
      have := processBodyLine_no_warning_of_kept path n line (by rw [hpl]; rfl)
      rw [hpl] at this
      exact this
    subst hw0
    rfl
  | none =>
    cases w0 with
    | some w => rfl
    | none => rfl

lemma processBody_warn_iff (path : String) :
    ∀ (n : Nat) (rest : List String) (w : LogEntry),
      w ∈ (processBody path n rest).2.2 ↔
        ∃ i line, rest[i]? = some line ∧
          (processBodyLine path (n + i) line).2 = some w := by
  intro n rest
  induction rest generalizing n with
  | nil =>
    intro w
    simp [processBody]
  | cons line rest ih =>
    intro w
    rw [processBody_warnings_cons, List.mem_append]
    constructor
    · rintro (h | h)
      · refine ⟨0, line, by simp, ?_⟩
        rw [Nat.add_zero]
        rcases Option.mem_toList.mp h with h'
        exact h'
      · rcases (ih (n + 1) w).mp h with ⟨i, l', hl', hw'⟩
        refine ⟨i + 1, l', by simpa using hl', ?_⟩
        rw [show n + (i + 1) = n + 1 + i by omega]
        exact hw'
    · rintro ⟨i, l', hl', hw'⟩
      cases i with
      | zero =>
        simp only [List.getElem?_cons_zero, Option.some_inj] at hl'
        subst hl'
        rw [Nat.add_zero] at hw'
        exact Or.inl (Option.mem_toList.mpr hw')
      | succ i =>
        simp only [List.getElem?_cons_succ] at hl'
        refine Or.inr ((ih (n + 1) w).mpr ⟨i, l', hl', ?_⟩)
        rw [show n + 1 + i = n + (i + 1) by omega]
        exact hw'

lemma filter_file_bodyLines (path : String) (lines : List String) :
    (filter_file path lines).bodyLines =
      (lines.tail.map pyStrip).filter keepPred := by
  cases lines with
  | nil => rfl
  | cons first rest =>
    by_cases h : pyStrip first = ""
    · simp only [filter_file, h, if_pos rfl, List.tail_cons]
      exact (processBody_fst_count path 2 rest).1
    · simp only [filter_file, if_neg h, List.tail_cons]
      exact (processBody_fst_count path 2 rest).1

lemma filter_file_warnings (path : String) (lines : List String) :
    (filter_file path lines).warnings = (processBody path 2 lines.tail).2.2 := by
  cases lines with
  | nil => rfl
  | cons first rest =>
    by_cases h : pyStrip first = ""
    · simp [filter_file, h]
    · simp [filter_file, h]

lemma filter_file_rowsWritten (path first : String) (rest : List String) :
    (filter_file path (first :: rest)).rowsWritten =
      (if pyStrip first = "" then 0 else 1) +
        ((rest.map pyStrip).filter keepPred).length := by
  by_cases h : pyStrip first = ""
  · simp [filter_file, h, (processBody_fst_count path 2 rest).2]
  · simp [filter_file, h, (processBody_fst_count path 2 rest).2]
    omega

/-- C2: every body line written by the filter stage has at least 10
whitespace-separated fields and its 10th field (index 9) parses as a float
strictly below the 1e-05 threshold. -/
theorem filter_threshold (path : String) (lines : List String) (l : String)
    (hl : l ∈ (filter_file path lines).bodyLines) :
    10 ≤ (pySplit l).length ∧
    ltThresholdOpt (pyFloat? (fieldD (pySplit l) 9)) = true := by
  rw [filter_file_bodyLines] at hl
  have hk : keepPred l = true := (List.mem_filter.mp hl).2
  by_cases hy : 10 ≤ (pySplit l).length
  · refine ⟨hy, ?_⟩
    simpa [keepPred, hy] using hk
  · simp only [keepPred, if_neg hy] at hk
    exact absurd hk (by simp)

/-- Witness for C2 at a concrete input file. -/
theorem filter_threshold_witness :
    "a b c d e f g h i 0" ∈
      (filter_file "f" ["H", "a b c d e f g h i 0"]).bodyLines ∧
    (10 ≤ (pySplit "a b c d e f g h i 0").length ∧
      ltThresholdOpt (pyFloat? (fieldD (pySplit "a b c d e f g h i 0") 9)) =
        true) :=
  ⟨by decide,
   filter_threshold "f" ["H", "a b c d e f g h i 0"] "a b c d e f g h i 0"
     (by decide)⟩

/-- C5 as amended: the filter writes the whitespace-stripped text of each
qualifying body line, so the written line is the original verbatim exactly
when the original has no leading or trailing whitespace. -/
theorem filter_writes_stripped (path : String) (lines : List String) :
    (filter_file path lines).bodyLines =
      (lines.tail.map pyStrip).filter keepPred :=
  filter_file_bodyLines path lines

/-- Counterexample to C5 as stated: a qualifying body line with a leading
space is written stripped, not verbatim. -/
theorem filter_not_verbatim_cex :
    (filter_file "f" ["H", " a b c d e f g h i 0"]).bodyLines =
      ["a b c d e f g h i 0"] ∧
    " a b c d e f g h i 0" ∉
      (filter_file "f" ["H", " a b c d e f g h i 0"]).bodyLines ∧
    10 ≤ (pySplit (pyStrip " a b c d e f g h i 0")).length ∧
    ltThresholdOpt
      (pyFloat? (fieldD (pySplit (pyStrip " a b c d e f g h i 0")) 9)) =
      true := by
  decide

/-- C6 as amended: every body line that is non-empty after stripping and
has fewer than 10 whitespace-separated fields is skipped, and a warning
carrying its line number, the source path, and the reason is logged;
(lines that strip to empty are skipped silently, see the
counterexample). -/
theorem filter_short_line_logged (path : String) (lines : List String)
    (i : Nat) (line : String) (hi : lines.tail[i]? = some line)
    (hne : pyStrip line ≠ "") (h10 : (pySplit (pyStrip line)).length < 10) :
    LogEntry.mk (i + 2) path SkipReason.lessThan10Columns ∈
      (filter_file path lines).warnings ∧
    pyStrip line ∉ (filter_file path lines).bodyLines := by
  constructor
  · rw [filter_file_warnings]
    refine (processBody_warn_iff path 2 lines.tail _).mpr ⟨i, line, hi, ?_⟩
    rw [show (2 : Nat) + i = i + 2 by omega]
    simp [processBodyLine, hne, h10]
  · rw [filter_file_bodyLines]
    intro hmem
    have hk := (List.mem_filter.mp hmem).2
    simp only [keepPred,
      if_neg (by omega : ¬ 10 ≤ (pySplit (pyStrip line)).length)] at hk
    exact absurd hk (by simp)

/-- Witness for the amended C6 at a concrete short line. -/
theorem filter_short_line_logged_witness :
    (["H", "a b"] : List String).tail[0]? = some "a b" ∧
    pyStrip "a b" ≠ "" ∧
    (pySplit (pyStrip "a b")).length < 10 ∧
    LogEntry.mk 2 "f" SkipReason.lessThan10Columns ∈
      (filter_file "f" ["H", "a b"]).warnings ∧
    pyStrip "a b" ∉ (filter_file "f" ["H", "a b"]).bodyLines :=
  ⟨by decide, by decide, by decide,
   (filter_short_line_logged "f" ["H", "a b"] 0 "a b" (by decide) (by decide)
       (by decide)).1,
   (filter_short_line_logged "f" ["H", "a b"] 0 "a b" (by decide) (by decide)
       (by decide)).2⟩

/-- Counterexample to C6 as stated: a body line that is all whitespace
(zero fields, hence fewer than 10) is skipped with no warning logged. -/
theorem filter_blank_line_not_logged_cex :
    (pySplit (pyStrip "   ")).length < 10 ∧
    (filter_file "f" ["H", "   "]).warnings = [] ∧
    (filter_file "f" ["H", "   "]).bodyLines = [] := by
  decide

/-- C7 as amended: for every input file whose first line is non-empty
after stripping, the reported written-row count is exactly 1 (the header)
plus the number of body lines passing the filter predicate; when the first
line strips to empty no header is written and the 1 is not added (see the
counterexample). -/
theorem filter_rows_written_count (path first : String) (rest : List String)
    (h : pyStrip first ≠ "") :
    (filter_file path (first :: rest)).rowsWritten =
      1 + ((rest.map pyStrip).filter keepPred).length := by
  rw [filter_file_rowsWritten, if_neg h]

/-- Witness for the amended C7 at a concrete input file. -/
theorem filter_rows_written_count_witness :
    pyStrip "H" ≠ "" ∧
    (filter_file "f" ["H", "a b c d e f g h i 0"]).rowsWritten =
      1 + (((["a b c d e f g h i 0"] : List String).map pyStrip).filter
        keepPred).length :=
  ⟨by decide,
   filter_rows_written_count "f" "H" ["a b c d e f g h i 0"] (by decide)⟩

/-- Counterexample to C7 as stated: a file whose first line is whitespace
only gets no header row, so the reported count is the body count alone,
not 1 plus it. -/
theorem filter_rows_written_cex :
    (filter_file "f" [" ", "a b c d e f g h i 0"]).rowsWritten ≠
      1 + ((([" ", "a b c d e f g h i 0"] : List String).tail.map
        pyStrip).filter keepPred).length := by
  decide

/-- C10: a body line with at least 10 fields whose 10th field parses as
NaN is not a parse failure: no warning is logged for its line number, and
since `NaN < 1e-05` is false in Python the line is silently dropped. -/
theorem filter_nan_dropped (path : String) (lines : List String) (i : Nat)
    (line : String) (hi : lines.tail[i]? = some line)
    (h10 : 10 ≤ (pySplit (pyStrip line)).length)
    (hnan : pyFloat? (fieldD (pySplit (pyStrip line)) 9) = some PyFloat.nan) :
    noWarningAt (filter_file path lines) (i + 2) = true ∧
    pyStrip line ∉ (filter_file path lines).bodyLines ∧
    PyFloat.lt PyFloat.nan pyThreshold = false := by
  have hne : pyStrip line ≠ "" := by
    intro h
    rw [h] at h10
    exact absurd h10 (by decide)
  have hnotlt : ¬ (pySplit (pyStrip line)).length < 10 := by omega
  have hpl2 : (processBodyLine path (i + 2) line).2 = none := by
    simp [processBodyLine, hne, hnotlt, hnan, PyFloat.lt]
  refine ⟨?_, ?_, rfl⟩
  · rw [noWarningAt, List.all_eq_true]
    intro w hw
    rw [filter_file_warnings] at hw
    rcases (processBody_warn_iff path 2 lines.tail w).mp hw with ⟨j, l', hj, hw'⟩
    have hln : w.lineNumber = 2 + j :=
      (processBodyLine_snd_lineNumber path (2 + j) l' w hw').1
    simp only [decide_eq_true_eq]
    intro hcontra
    have hji : j = i := by omega
    subst hji
    have hl' : l' = line := by
      have h' := hj.symm.trans hi
      injection h'
    subst hl'
    rw [show (2 : Nat) + j = j + 2 by omega, hpl2] at hw'
    exact Option.noConfusion hw'
  · rw [filter_file_bodyLines]
    intro hmem
    have hk := (List.mem_filter.mp hmem).2
    simp only [keepPred, if_pos h10, hnan] at hk
    exact absurd hk (by decide)

/-- Witness for C10 at a concrete input file with a `nan` field. -/
theorem filter_nan_dropped_witness :
    (["H", "a b c d e f g h i nan"] : List String).tail[0]? =
      some "a b c d e f g h i nan" ∧
    10 ≤ (pySplit (pyStrip "a b c d e f g h i nan")).length ∧
    pyFloat? (fieldD (pySplit (pyStrip "a b c d e f g h i nan")) 9) =
      some PyFloat.nan ∧
    noWarningAt (filter_file "f" ["H", "a b c d e f g h i nan"]) 2 = true ∧
    pyStrip "a b c d e f g h i nan" ∉
      (filter_file "f" ["H", "a b c d e f g h i nan"]).bodyLines :=
  ⟨by decide, by decide, by decide,
   (filter_nan_dropped "f" ["H", "a b c d e f g h i nan"] 0
       "a b c d e f g h i nan" (by decide) (by decide) (by decide)).1,
   (filter_nan_dropped "f" ["H", "a b c d e f g h i nan"] 0
       "a b c d e f g h i nan" (by decide) (by decide) (by decide)).2.1⟩

/-- C9: a missing primary input makes the join utility exit with status 1,
while the batch filter utility records the missing listed path among its
errors, skips it, and processes the remaining listed paths unchanged. -/
theorem missing_input_handling (fs : String → Option (List Row))
    (fsf : String → Option (List String)) (a b p : String)
    (pre post : List String)
    (hab : fs a = none ∨ fs b = none)
    (hps : pyStrip p = p) (hpne : p ≠ "") (hmiss : fsf p = none) :
    merge_files_program fs a b = RunOutcome.exit 1 ∧
    (process_file_paths fsf (pre ++ p :: post)).processed =
      (process_file_paths fsf (pre ++ post)).processed ∧
    p ∈ (process_file_paths fsf (pre ++ p :: post)).errors := by
  refine ⟨?_, ?_⟩
  · cases hfa : fs a with
    | none => simp [merge_files_program, hfa]
    | some ra =>
      have hfb : fs b = none := by
        rcases hab with h | h
        · rw [hfa] at h
          exact absurd h (by simp)
        · exact h
      simp [merge_files_program, hfa, hfb]
  · induction pre with
    | nil =>
      refine ⟨?_, ?_⟩
      · simp [process_file_paths, hps, hpne, hmiss]
      · simp [process_file_paths, hps, hpne, hmiss]
    | cons q pre ih =>
      by_cases hq : pyStrip q = ""
      · simpa [process_file_paths, hq] using ih
      · cases hfq : fsf (pyStrip q) with
        | none =>
          refine ⟨?_, ?_⟩
          · simpa [process_file_paths, hq, hfq] using ih.1
          · simp only [List.cons_append, process_file_paths, hfq]
            simp [hq, List.mem_cons, ih.2]
        | some c =>
          refine ⟨?_, ?_⟩
          · simp [process_file_paths, hq, hfq, ih.1]
          · simpa [process_file_paths, hq, hfq] using ih.2

/-- A file system with no files, for the witness of the join half. -/
def fsNone : String → Option (List Row) := fun _ => none

/-- A file system with a single one-line file, for the witness of the
batch half. -/
def fsfOneFile : String → Option (List String) :=
  fun s => if s = "existing" then some ["H"] else none

/-- Witness for C9: missing join input exits 1; the batch driver skips the
missing listed path `p`, records it, and still processes `existing`. -/
theorem missing_input_handling_witness :
    fsNone "a" = none ∧ pyStrip "p" = "p" ∧ "p" ≠ "" ∧
    fsfOneFile "p" = none ∧
    merge_files_program fsNone "a" "b" = RunOutcome.exit 1 ∧
    (process_file_paths fsfOneFile ["existing", "p"]).processed =
      (process_file_paths fsfOneFile ["existing"]).processed ∧
    "p" ∈ (process_file_paths fsfOneFile ["existing", "p"]).errors :=
  ⟨rfl, by decide, by decide, by decide,
   missing_input_handling fsNone fsfOneFile "a" "b" "p" ["existing"] []
     (Or.inl rfl) (by decide) (by decide) (by decide)⟩

/-! ## Lemmas about the whitespace-to-tab converter -/

lemma pySplitAux_all_ws :
    ∀ (l : List Char), (∀ c ∈ l, c.isWhitespace = true) →
      ∀ acc, pySplitAux l acc = if acc.isEmpty then [] else [acc.reverse] := by
  intro l
  induction l with
  | nil => intro _ acc; rfl
  | cons c cs ih =>
    intro hws acc
    have hc : c.isWhitespace = true := hws c (List.mem_cons_self _ _)
    have hcs : ∀ x ∈ cs, x.isWhitespace = true :=
      fun x hx => hws x (List.mem_cons_of_mem _ hx)
    by_cases ha : acc.isEmpty
    · simp [pySplitAux, hc, ha, ih hcs]
    · simp [pySplitAux, hc, ha, ih hcs]

lemma pySplitAux_append_ws (w : List Char)
    (hw : ∀ c ∈ w, c.isWhitespace = true) :
    ∀ (m acc : List Char), pySplitAux (m ++ w) acc = pySplitAux m acc := by
  intro m
  induction m with
  | nil =>
    intro acc
    rw [List.nil_append, pySplitAux_all_ws w hw acc]
    rfl
  | cons c m' ih =>
    intro acc
    by_cases hc : c.isWhitespace
    · by_cases ha : acc.isEmpty
      · simp [pySplitAux, hc, ha, ih]
      · simp [pySplitAux, hc, ha, ih]
    · simp [pySplitAux, hc, ih]

lemma pySplitL_dropWhile_ws (l : List Char) :
    pySplitL (l.dropWhile Char.isWhitespace) = pySplitL l := by
  induction l with
  | nil => rfl
  | cons c cs ih =>
    by_cases hc : c.isWhitespace
    · rw [List.dropWhile_cons_of_pos hc, ih]
      simp [pySplitL, pySplitAux, hc]
    · rw [List.dropWhile_cons_of_neg hc]

lemma pySplitL_pyStripL (l : List Char) :
    pySplitL (pyStripL l) = pySplitL l := by
  unfold pyStripL
  rw [← pySplitL_dropWhile_ws l]
  set m := l.dropWhile Char.isWhitespace with hm
  have hdecomp : m = (m.reverse.dropWhile Char.isWhitespace).reverse ++
      (m.reverse.takeWhile Char.isWhitespace).reverse := by
    calc m = m.reverse.reverse := (List.reverse_reverse m).symm
    _ = (m.reverse.takeWhile Char.isWhitespace ++
          m.reverse.dropWhile Char.isWhitespace).reverse := by
        rw [List.takeWhile_append_dropWhile]
    _ = (m.reverse.dropWhile Char.isWhitespace).reverse ++
          (m.reverse.takeWhile Char.isWhitespace).reverse := by
        rw [List.reverse_append]
  conv_rhs => rw [hdecomp]
  unfold pySplitL
  rw [pySplitAux_append_ws _ ?_ _ []]
  intro c hc
  rw [List.mem_reverse] at hc
  exact List.mem_takeWhile_imp hc

lemma pySplitAux_tokens :
    ∀ (l acc : List Char), (∀ c ∈ acc, c.isWhitespace = false) →
      ∀ t ∈ pySplitAux l acc, t ≠ [] ∧ ∀ c ∈ t, c.isWhitespace = false := by
  intro l
  induction l with
  | nil =>
    intro acc hacc t ht
    by_cases ha : acc.isEmpty
    · simp [pySplitAux, ha] at ht
    · simp [pySplitAux, ha] at ht
      subst ht
      have hacc_ne : acc ≠ [] := by
        intro h
        subst h
        exact ha rfl
      constructor
      · intro hrev
        exact hacc_ne (by simpa using hrev)
      · intro c hc
        exact hacc c (List.mem_reverse.mp hc)
  | cons c cs ih =>
    intro acc hacc t ht
    by_cases hc : c.isWhitespace
    · by_cases ha : acc.isEmpty
      · simp only [pySplitAux, hc, if_pos rfl, ha] at ht
        exact ih [] (by simp) t (by simpa using ht)
      · simp only [pySplitAux, hc, if_pos rfl, ha] at ht
        rcases List.mem_cons.mp (by simpa using ht) with h | h
        · subst h
          constructor
          · intro hrev
            exact ha (by simpa using congrArg List.isEmpty hrev)
          · intro x hx
            exact hacc x (List.mem_reverse.mp hx)
        · exact ih [] (by simp) t h
    · simp only [pySplitAux, hc] at ht
      refine ih (c :: acc) ?_ t (by simpa using ht)
      intro x hx
      rcases List.mem_cons.mp hx with h | h
      · subst h
        exact Bool.of_not_eq_true hc
      · exact hacc x h

lemma pySplitAux_token_append (t : List Char)
    (ht : ∀ c ∈ t, c.isWhitespace = false) :
    ∀ (rest acc : List Char),
      pySplitAux (t ++ rest) acc = pySplitAux rest (t.reverse ++ acc) := by
  induction t with
  | nil => intro rest acc; simp
  | cons c t' ih =>
    intro rest acc
    have hc : c.isWhitespace = false := ht c (List.mem_cons_self _ _)
    have ht' : ∀ x ∈ t', x.isWhitespace = false :=
      fun x hx => ht x (List.mem_cons_of_mem _ hx)
    rw [List.cons_append]
    simp only [pySplitAux, hc]
    rw [ih ht' rest (c :: acc)]
    simp [List.append_assoc]

lemma pySplitL_tabJoinL :
    ∀ (ts : List (List Char)),
      (∀ t ∈ ts, t ≠ [] ∧ ∀ c ∈ t, c.isWhitespace = false) →
      pySplitL (tabJoinL ts) = ts := by
  intro ts
  induction ts with
  | nil => intro _; rfl
  | cons t ts ih =>
    intro h
    have hne : t ≠ [] := (h t (List.mem_cons_self _ _)).1
    have hnw : ∀ c ∈ t, c.isWhitespace = false := (h t (List.mem_cons_self _ _)).2
    have hrevne : ¬ (t.reverse ++ []).isEmpty := by
      simp [List.isEmpty_iff, hne]
    cases ts with
    | nil =>
      unfold pySplitL
      rw [show tabJoinL [t] = t from rfl, ← List.append_nil t,
        pySplitAux_token_append t hnw [] []]
      simp only [pySplitAux, if_neg hrevne]
      simp
    | cons t2 ts2 =>
      unfold pySplitL
      rw [show tabJoinL (t :: t2 :: ts2) = t ++ '\t' :: tabJoinL (t2 :: ts2)
          from rfl,
        pySplitAux_token_append t hnw _ []]
      have htab : ('\t' : Char).isWhitespace = true := by decide
      simp only [pySplitAux, htab, if_pos rfl, if_neg hrevne, if_true]
      have hsimp : (t.reverse ++ ([] : List Char)).reverse = t := by simp
      rw [hsimp]
      have hih := ih (fun x hx => h x (List.mem_cons_of_mem _ hx))
      unfold pySplitL at hih
      rw [hih]

/-- The tokens produced by splitting are non-empty and free of
whitespace. -/
lemma pySplitL_tokens (l : List Char) :
    ∀ t ∈ pySplitL l, t ≠ [] ∧ ∀ c ∈ t, c.isWhitespace = false :=
  pySplitAux_tokens l [] (by simp)

lemma convert_line_idem (s : String) :
    convert_line (convert_line s) = convert_line s := by
  show (⟨tabJoinL (pySplitL (pyStripL
      (tabJoinL (pySplitL (pyStripL s.toList)))))⟩ : String) =
    ⟨tabJoinL (pySplitL (pyStripL s.toList))⟩
  have h1 : pySplitL (pyStripL (tabJoinL (pySplitL (pyStripL s.toList)))) =
      pySplitL (pyStripL s.toList) := by
    rw [pySplitL_pyStripL, pySplitL_tabJoinL _ (pySplitL_tokens _)]
  rw [h1]

/-- C8: re-running the whitespace-to-tab converter on its own output
changes nothing: the per-line strip, split and tab-join transform of
retype.py is idempotent (fields produced by splitting never contain
whitespace). -/
theorem tab_converter_idempotent (lines : List String) :
    convert_to_tab_delimited (convert_to_tab_delimited lines) =
      convert_to_tab_delimited lines := by
  unfold convert_to_tab_delimited
  induction lines with
  | nil => rfl
  | cons s rest ih =>
    simp only [List.map_cons, convert_line_idem]
    rw [show (List.map convert_line (List.map convert_line rest)) =
        List.map convert_line rest by simpa using ih]

end MR
